import Mathlib

/-!
Shallow embedding of the mqmcp repository's core logic:
the hostname allow-list gate, the directory-snapshot search
(`search_qmgr_dump`), the `runmqsc` pre-dispatch routing
(src/server/mqmcpserver.py), and the provider tool-calling loops
(src/clients/providers/openai_provider.py, anthropic_provider.py).
-/

namespace MqMcp

/-! ## Regular-expression model

`search_qmgr_dump` matches rows with
`row.str.contains(re.escape(search_string), case=False)`: the query is
regex-escaped and then searched for, case-insensitively, in each column.
We model a small regex engine (literals, `.`, `*`; other metacharacters
unsupported, which `re.escape` output never contains bare) together with
Python 3.7+ `re.escape`. -/

/-- One piece of a parsed regular expression: a literal character, the
wildcard `.`, or a starred version of either. -/
inductive Piece where
  | lit (c : Char)
  | anyChar
  | starLit (c : Char)
  | starAny
deriving DecidableEq

/-- Star a piece, as the parser does when it sees `*` after a piece. -/
def starOf : Piece → Option Piece
  | Piece.lit c => some (Piece.starLit c)
  | Piece.anyChar => some Piece.starAny
  | _ => none

/-- Metacharacters the model engine does not support bare: a pattern
containing one of them unescaped fails to parse. `re.escape` escapes all
of them, so escaped patterns never hit this case. -/
def unsupportedMeta : List Char :=
  ['(', ')', '[', ']', '\x7b', '\x7d', '|', '+', '?', '^', '$']

/-- Parse a pattern into pieces: a backslash escapes the next character
to a literal, `.` is the wildcard, `*` stars the previous piece, any
other supported character is a literal. -/
def parseRegexAux (acc : List Piece) : List Char → Option (List Piece)
  | [] => some acc.reverse
  | c :: rest =>
    if c == '\\' then
      match rest with
      | [] => none
      | d :: rest2 => parseRegexAux (Piece.lit d :: acc) rest2
    else if c == '.' then parseRegexAux (Piece.anyChar :: acc) rest
    else if c == '*' then
      match acc with
      | [] => none
      | p :: ps =>
        match starOf p with
        | some sp => parseRegexAux (sp :: ps) rest
        | none => none
    else if unsupportedMeta.contains c then none
    else parseRegexAux (Piece.lit c :: acc) rest

/-- Parse a whole pattern. -/
def parseRegex (pat : List Char) : Option (List Piece) :=
  parseRegexAux [] pat

/-- The suffixes of `s` reachable by consuming zero or more leading
occurrences of `c` (case-insensitively): the expansions of `c*`. -/
def litRunSuffixes (c : Char) : List Char → List (List Char)
  | [] => [[]]
  | x :: xs =>
    (x :: xs) :: (if x.toLower == c.toLower then litRunSuffixes c xs else [])

/-- All suffixes of a list, the expansions of `.*`. -/
def tailsList : List Char → List (List Char)
  | [] => [[]]
  | x :: xs => (x :: xs) :: tailsList xs

/-- Does the piece list match some prefix of `s`?  Comparison is through
`Char.toLower` on both sides, modelling `case=False`. -/
def matchPrefix : List Piece → List Char → Bool
  | [], _ => true
  | Piece.lit _ :: _, [] => false
  | Piece.lit c :: ps, x :: xs => (x.toLower == c.toLower) && matchPrefix ps xs
  | Piece.anyChar :: _, [] => false
  | Piece.anyChar :: ps, _ :: xs => matchPrefix ps xs
  | Piece.starLit c :: ps, s => (litRunSuffixes c s).any (fun t => matchPrefix ps t)
  | Piece.starAny :: ps, s => (tailsList s).any (fun t => matchPrefix ps t)

/-- Does the piece list match anywhere in `s` (Python `re.search`)? -/
def searchMatch (ps : List Piece) : List Char → Bool
  | [] => matchPrefix ps []
  | x :: xs => matchPrefix ps (x :: xs) || searchMatch ps xs

/-- The characters Python 3.7+ `re.escape` escapes: exactly those that
can have special meaning in a regular expression. -/
def reSpecialChars : List Char :=
  ['(', ')', '[', ']', '\x7b', '\x7d', '?', '*', '+', '-', '|', '^', '$',
   '\\', '.', '&', '~', '#', ' ', '\t', '\n', '\r', '\x0b', '\x0c']

/-- `re.escape` on one character. -/
def reEscapeChar (c : Char) : List Char :=
  if reSpecialChars.contains c then ['\\', c] else [c]

/-- `re.escape` on a character list. -/
def reEscapeList : List Char → List Char
  | [] => []
  | c :: cs => reEscapeChar c ++ reEscapeList cs

/-- Python `re.escape`. -/
def reEscape (s : String) : List Char :=
  reEscapeList s.data

/-- `pandas.Series.str.contains(pat, case=False)` for one cell: compile
the pattern and search case-insensitively. An unparsable pattern counts
as no match (unreachable for escaped patterns). -/
def strContainsRegexCI (pat : List Char) (s : String) : Bool :=
  match parseRegex pat with
  | some ps => searchMatch ps s.data
  | none => false

/-! ### Spec-side notion of matching, for the refinement claim C9 -/

/-- Case-insensitive literal prefix test on character lists. -/
def isPrefixCI : List Char → List Char → Bool
  | [], _ => true
  | _ :: _, [] => false
  | a :: as, b :: bs => (a.toLower == b.toLower) && isPrefixCI as bs

/-- Case-insensitive literal substring test: the claim's wording of what
a column match is ("contains the query as a literal case-insensitive
substring"). Compared against the regex-based code path in C9. -/
def isSubstrCI (q : List Char) : List Char → Bool
  | [] => isPrefixCI q []
  | x :: xs => isPrefixCI q (x :: xs) || isSubstrCI q xs

/-! ## Python string primitives

Modelled on character lists so that every definition evaluates inside
the kernel on concrete inputs. -/

/-- Python `str.lower` (ASCII-adequate). -/
def pyLower (s : String) : String :=
  ⟨s.data.map Char.toLower⟩

/-- Python `str.upper` (ASCII-adequate). -/
def pyUpper (s : String) : String :=
  ⟨s.data.map Char.toUpper⟩

/-- Python `str.strip`: drop whitespace from both ends. -/
def pyStrip (s : String) : String :=
  ⟨((s.data.dropWhile Char.isWhitespace).reverse.dropWhile Char.isWhitespace).reverse⟩

/-- Python `str.startswith`. -/
def pyStartsWith (s pre : String) : Bool :=
  pre.data.isPrefixOf s.data

/-- Python truthiness of a string: empty is falsy. -/
def strEmpty (s : String) : Bool :=
  s.data.isEmpty

/-- Join a list of strings with a separator (`str.join`). -/
def joinWith (sep : String) : List String → String
  | [] => ""
  | x :: xs => xs.foldl (fun acc y => acc ++ sep ++ y) x

/-! ## Data model: one snapshot row -/

/-- One row of the qmgr dump after `_load_csv_from_disk`'s renames:
columns `extractedat | hostname | qmgr | object_type | mqsc_command`,
each rendered as a string (the search applies `df.astype(str)`). -/
structure Row where
  extractedat : String
  hostname : String
  qmgr : String
  object_type : String
  mqsc_command : String
deriving DecidableEq

/-- The row's cells in column order, as the string-cast search sees them. -/
def rowColumns (r : Row) : List String :=
  [r.extractedat, r.hostname, r.qmgr, r.object_type, r.mqsc_command]

/-- A row matches the query when any column, rendered as a string,
contains the escaped query pattern case-insensitively
(mqmcpserver.py lines 170-172). -/
def rowMatches (search_string : String) (r : Row) : Bool :=
  (rowColumns r).any (fun col => strContainsRegexCI (reEscape search_string) col)

/-! ## Hostname allow-list gate (mqmcpserver.py lines 123-138) -/

/-- `is_hostname_allowed`: lower-case and trim the hostname, allow iff it
starts with the lower-cased form of some configured allow-list entry;
blocked hostnames get a fixed refusal message naming the hostname. -/
def is_hostname_allowed (prefixes : List String) (hostname : String) : Bool × String :=
  let hostname_lower := pyStrip (pyLower hostname)
  if prefixes.any (fun p => pyStartsWith hostname_lower (pyLower p)) then
    (true, "")
  else
    (false,
      "🚫 Access to this systems is restricted for safety. " ++
      "This query targets hostname '" ++ hostname ++
      "' which is not in the allowed list.\n\n")

/-! ## search_qmgr_dump (mqmcpserver.py lines 156-216) -/

/-- Python truthiness of an optional string: `None` and `""` are falsy. -/
def truthyOpt : Option String → Bool
  | none => false
  | some s => !strEmpty s

/-- Type inference (lines 178-183): when no truthy `object_type` is
given, an upper-cased query starting `QL.` / `QA.` / `QR.` infers
`QLOCAL` / `QALIAS` / `QREMOTE`; otherwise the given value stands. -/
def inferType (search_string : String) (object_type : Option String) : Option String :=
  if truthyOpt object_type then object_type
  else
    let s_upper := pyUpper search_string
    if pyStartsWith s_upper "QL." then some "QLOCAL"
    else if pyStartsWith s_upper "QA." then some "QALIAS"
    else if pyStartsWith s_upper "QR." then some "QREMOTE"
    else object_type

/-- The queue-like object types the special filter value `QUEUES` covers. -/
def queueTypes : List String :=
  ["QLOCAL", "QREMOTE", "QMODEL", "QALIAS"]

/-- Object-type filter (lines 185-192): applied only when the inferred
type is truthy; `QUEUES` keeps the queue-like types, anything else keeps
rows whose upper-cased type equals the upper-cased filter. -/
def typeFilter (inf_type : Option String) (ms : List Row) : List Row :=
  if truthyOpt inf_type then
    let inf_type_upper := pyUpper (inf_type.getD "")
    if inf_type_upper == "QUEUES" then
      ms.filter (fun r => queueTypes.contains (pyUpper r.object_type))
    else
      ms.filter (fun r => pyUpper r.object_type == inf_type_upper)
  else ms

/-- Step 1 of the search: all rows matching the query in any column. -/
def totalMatches (rows : List Row) (search_string : String) : List Row :=
  rows.filter (rowMatches search_string)

/-- Step 2: the substring matches surviving the (explicit or inferred)
type filter. -/
def typeFilteredMatches (rows : List Row) (search_string : String)
    (object_type : Option String) : List Row :=
  typeFilter (inferType search_string object_type) (totalMatches rows search_string)

/-- Step 3a: type-filtered matches on gate-passing hostnames. -/
def allowedMatches (prefixes : List String) (rows : List Row)
    (search_string : String) (object_type : Option String) : List Row :=
  (typeFilteredMatches rows search_string object_type).filter
    (fun r => (is_hostname_allowed prefixes r.hostname).fst)

/-- Step 3b: type-filtered matches on gate-failing hostnames. -/
def restrictedMatches (prefixes : List String) (rows : List Row)
    (search_string : String) (object_type : Option String) : List Row :=
  (typeFilteredMatches rows search_string object_type).filter
    (fun r => !(is_hostname_allowed prefixes r.hostname).fst)

/-- First-occurrence deduplication, as `pandas.drop_duplicates` keeps the
first of each duplicate group. -/
def dedupFirstAux [DecidableEq α] (seen : List α) : List α → List α
  | [] => []
  | x :: xs =>
    if x ∈ seen then dedupFirstAux seen xs
    else x :: dedupFirstAux (x :: seen) xs

/-- Deduplicate keeping first occurrences. -/
def dedupFirst [DecidableEq α] (l : List α) : List α :=
  dedupFirstAux [] l

/-- The deduplicated `(hostname, qmgr, object_type)` display triples of a
row list (`[["hostname", "qmgr", "object_type"]].drop_duplicates()`). -/
def displayTriples (l : List Row) : List (String × String × String) :=
  dedupFirst (l.map (fun r => (r.hostname, r.qmgr, r.object_type)))

/-- Result string when the CSV is empty. -/
def emptyCsvMsg : String :=
  "No records found. CSV file may be empty."

/-- Result string when nothing matches the query at all. -/
def notFoundMsg (search_string : String) : String :=
  "❌ '" ++ search_string ++ "' not found in the manifest."

/-- Result string when matches exist but none has the requested type. -/
def wrongTypeMsg (search_string inf_type found_types : String) : String :=
  "❌ '" ++ search_string ++ "' exists but is not of type '" ++ inf_type ++
  "'. (Found types: " ++ found_types ++ ")"

/-- Result string when every type-filtered match is on a gate-failing
hostname. -/
def restrictedOnlyMsg (search_string : String) : String :=
  "🚫 '" ++ search_string ++
  "' was found, but only on restricted/production systems. I do not have access to these."

/-- The full `search_qmgr_dump` tool (lines 156-216), as a function of
the configured allow-list and the loaded snapshot. -/
def search_qmgr_dump (prefixes : List String) (rows : List Row)
    (search_string : String) (object_type : Option String) : String :=
  if rows.isEmpty then emptyCsvMsg
  else
    let total := totalMatches rows search_string
    if total.isEmpty then notFoundMsg search_string
    else
      let inf := inferType search_string object_type
      let tf := typeFilter inf total
      if tf.isEmpty then
        wrongTypeMsg search_string (inf.getD "")
          (joinWith ", " (dedupFirst (total.map Row.object_type)))
      else
        let allowedM := allowedMatches prefixes rows search_string object_type
        let restrictedM := restrictedMatches prefixes rows search_string object_type
        if allowedM.isEmpty then restrictedOnlyMsg search_string
        else
          let linesA := (displayTriples allowedM).map
            (fun (p : String × String × String) =>
              "QM:" ++ p.2.1 ++ " Host:" ++ p.1 ++ " Type:" ++ p.2.2)
          let allLines :=
            if restrictedM.isEmpty then linesA
            else
              linesA ++ (displayTriples restrictedM).map
                (fun (p : String × String × String) =>
                  "QM:" ++ p.2.1 ++ " [RESTRICTED: " ++ p.1 ++ "] Type:" ++ p.2.2)
          joinWith "\n" allLines

/-! ## runmqsc pre-dispatch routing (mqmcpserver.py lines 277-326)

The network call itself is outside the embedding; the function returns
either the gate's refusal message or the dispatch the code would
perform (target hostname, URL, command payload). -/

/-- What `runmqsc` does after hostname resolution: refuse with the
gate's message, or post the command to the built URL. -/
inductive RunmqscAction where
  | refuse (message : String)
  | dispatch (target_hostname url mqsc_command : String)
deriving DecidableEq

/-- Replace every non-overlapping occurrence of `pat` in the remaining
input, left to right, with enough fuel to cover the whole input. -/
def replaceAllAux (pat rep : List Char) : Nat → List Char → List Char
  | _, [] => []
  | 0, s => s
  | Nat.succ fuel, x :: xs =>
    if pat.isPrefixOf (x :: xs) then
      rep ++ replaceAllAux pat rep fuel ((x :: xs).drop pat.length)
    else
      x :: replaceAllAux pat rep fuel xs

/-- Python `str.replace` for a non-empty pattern (the code only ever
replaces the literal `"localhost"`). -/
def pyReplace (s pat rep : String) : String :=
  if pat.data.isEmpty then s
  else ⟨replaceAllAux pat.data rep.data s.data.length s.data⟩

/-- The URL the command is posted to (lines 316-317): the base URL with
`localhost` replaced by the target hostname, then the action path. -/
def mkRunmqscUrl (urlBase target_hostname qmgr_name : String) : String :=
  pyReplace urlBase "localhost" target_hostname ++ "action/qmgr/" ++ qmgr_name ++ "/mqsc"

/-- The snapshot rows whose queue-manager column equals `qmgr_name`
case-insensitively (line 303). -/
def qmgrRowMatches (rows : List Row) (qmgr_name : String) : List Row :=
  rows.filter (fun r => pyUpper r.qmgr == pyUpper qmgr_name)

/-- `runmqsc` hostname resolution and gating (lines 290-326): an
explicit truthy hostname is trimmed and gated; otherwise, with a
non-empty snapshot, the first row matching the queue manager supplies
the hostname, which is gated; in every remaining case the queue-manager
name itself is used as hostname with no gate check. -/
def runmqsc (prefixes : List String) (urlBase : String) (rows : List Row)
    (qmgr_name mqsc_command : String) (hostname : Option String) : RunmqscAction :=
  if truthyOpt hostname then
    let target := pyStrip (hostname.getD "")
    let gate := is_hostname_allowed prefixes target
    if gate.fst then
      RunmqscAction.dispatch target (mkRunmqscUrl urlBase target qmgr_name) mqsc_command
    else RunmqscAction.refuse gate.snd
  else if !rows.isEmpty then
    match (qmgrRowMatches rows qmgr_name).head? with
    | some r0 =>
      let target := pyStrip r0.hostname
      let gate := is_hostname_allowed prefixes target
      if gate.fst then
        RunmqscAction.dispatch target (mkRunmqscUrl urlBase target qmgr_name) mqsc_command
      else RunmqscAction.refuse gate.snd
    | none =>
      RunmqscAction.dispatch qmgr_name (mkRunmqscUrl urlBase qmgr_name qmgr_name) mqsc_command
  else
    RunmqscAction.dispatch qmgr_name (mkRunmqscUrl urlBase qmgr_name qmgr_name) mqsc_command

/-! ## Provider tool-calling loops

Both providers run the same bounded loop: ask the model, execute any
requested tools in order, feed results back, give up after 10
iterations. The model is an opaque oracle: a function from the number
of provider calls made so far to the next response. Tool execution is a
pure callback `name → args → result`. -/

/-- The fixed message returned when the iteration budget is exhausted. -/
def maxIterationsMsg : String :=
  "❌ Maximum tool call iterations reached."

/-- The iteration budget (`max_iterations = 10` in both providers). -/
def maxIterations : Nat := 10

/-- History pruning (`conversation_history[:] = conversation_history[-10:]`
once the length exceeds 10). -/
def pruneHistory (h : List α) : List α :=
  if h.length > 10 then h.drop (h.length - 10) else h

/-- One `{name, args}` record of the tool-usage log. -/
structure ToolRec where
  name : String
  args : String
deriving DecidableEq

/-- One tool call of an OpenAI response (`message.tool_calls[i]`). -/
structure OAToolCall where
  id : String
  name : String
  arguments : String
deriving DecidableEq

/-- One OpenAI chat response message: optional text content plus a
possibly empty tool-call list (`None` tool_calls and `[]` coincide). -/
structure OAResponse where
  content : Option String
  toolCalls : List OAToolCall
deriving DecidableEq

/-- One entry of the OpenAI conversation history. -/
inductive OAMsg where
  | user (text : String)
  | assistant (text : String)
  | assistantToolMsg (resp : OAResponse)
  | toolResult (tool_call_id name content : String)
deriving DecidableEq

/-- The mutable state the OpenAI loop threads: shared history, the
tool-usage log, and how many provider calls have been made. -/
structure OAState where
  history : List OAMsg
  toolsUsed : List ToolRec
  providerCalls : Nat
deriving DecidableEq

/-- Execute one response's tool calls in order
(openai_provider.py lines 90-105): each call appends its `{name, args}`
record to the log and its textual result to the history. -/
def oaExecToolCalls (callTool : String → String → String)
    (tcs : List OAToolCall) (st : OAState) : OAState :=
  tcs.foldl
    (fun s tc =>
      { s with
        toolsUsed := s.toolsUsed ++ [ToolRec.mk tc.name tc.arguments],
        history := s.history ++
          [OAMsg.toolResult tc.id tc.name (callTool tc.name tc.arguments)] })
    st

/-- The OpenAI iteration loop (lines 60-107): ask the provider; a
response with no tool calls ends the turn with its text; otherwise the
raw assistant message is appended, its tools are executed in order, and
the loop continues; exhausted fuel yields the fixed error message. -/
def oaChatLoop (provider : Nat → OAResponse) (callTool : String → String → String) :
    Nat → OAState → String × OAState
  | 0, st => (maxIterationsMsg, st)
  | Nat.succ fuel, st =>
    let resp := provider st.providerCalls
    let st1 : OAState := { st with providerCalls := st.providerCalls + 1 }
    if resp.toolCalls.isEmpty then
      let text := resp.content.getD ""
      (text, { st1 with history := st1.history ++ [OAMsg.assistant text] })
    else
      let st2 : OAState := { st1 with history := st1.history ++ [OAMsg.assistantToolMsg resp] }
      oaChatLoop provider callTool fuel (oaExecToolCalls callTool resp.toolCalls st2)

/-- `OpenAIProvider.chat` after the SDK plumbing (lines 49-107): append
the user message, prune to the last 10 history entries, then run the
iteration loop with a fresh provider-call counter. -/
def oaChat (provider : Nat → OAResponse) (callTool : String → String → String)
    (user_input : String) (history0 : List OAMsg) (toolsUsed0 : List ToolRec) :
    String × OAState :=
  oaChatLoop provider callTool maxIterations
    (OAState.mk (pruneHistory (history0 ++ [OAMsg.user user_input])) toolsUsed0 0)

/-- One content block of an Anthropic response: a text block or a
tool-use block. -/
inductive ABlock where
  | textBlock (text : String)
  | toolUse (id name input : String)
deriving DecidableEq

/-- One entry of the Anthropic conversation history; tool results are
gathered into a single user message. -/
inductive AMsg where
  | user (text : String)
  | assistant (text : String)
  | assistantBlocks (blocks : List ABlock)
  | userToolResults (results : List (String × String))
deriving DecidableEq

/-- The state the Anthropic loop threads. -/
structure AState where
  history : List AMsg
  toolsUsed : List ToolRec
  providerCalls : Nat
deriving DecidableEq

/-- `any(block.type == "tool_use" for block in response.content)`. -/
def aHasToolUse (blocks : List ABlock) : Bool :=
  blocks.any (fun b => match b with | ABlock.toolUse .. => true | _ => false)

/-- `next((b.text for b in response.content if hasattr(b, "text")), "")`:
the first text block's text, or empty. -/
def aFirstText (blocks : List ABlock) : String :=
  (blocks.findSome? (fun b => match b with | ABlock.textBlock t => some t | _ => none)).getD ""

/-- The tool-use blocks of a response, in order. -/
def aToolUses (blocks : List ABlock) : List (String × String × String) :=
  blocks.filterMap
    (fun b => match b with | ABlock.toolUse i n inp => some (i, n, inp) | _ => none)

/-- Execute one response's tool-use blocks in order
(anthropic_provider.py lines 90-110): each appends its record to the
log and its `(tool_use_id, result)` to a result list, which is appended
to the history as one user message. -/
def aProcessBlocks (callTool : String → String → String)
    (blocks : List ABlock) (st : AState) : AState :=
  let step := blocks.foldl
    (fun (acc : List ToolRec × List (String × String)) b =>
      match b with
      | ABlock.toolUse id name input =>
        (acc.1 ++ [ToolRec.mk name input], acc.2 ++ [(id, callTool name input)])
      | _ => acc)
    (st.toolsUsed, [])
  { st with toolsUsed := step.1, history := st.history ++ [AMsg.userToolResults step.2] }

/-- The Anthropic iteration loop (lines 59-112). -/
def aChatLoop (provider : Nat → List ABlock) (callTool : String → String → String) :
    Nat → AState → String × AState
  | 0, st => (maxIterationsMsg, st)
  | Nat.succ fuel, st =>
    let content := provider st.providerCalls
    let st1 : AState := { st with providerCalls := st.providerCalls + 1 }
    if aHasToolUse content then
      let st2 : AState := { st1 with history := st1.history ++ [AMsg.assistantBlocks content] }
      aChatLoop provider callTool fuel (aProcessBlocks callTool content st2)
    else
      let text := aFirstText content
      (text, { st1 with history := st1.history ++ [AMsg.assistant text] })

/-- `AnthropicProvider.chat` after the SDK plumbing (lines 48-112). -/
def aChat (provider : Nat → List ABlock) (callTool : String → String → String)
    (user_input : String) (history0 : List AMsg) (toolsUsed0 : List ToolRec) :
    String × AState :=
  aChatLoop provider callTool maxIterations
    (AState.mk (pruneHistory (history0 ++ [AMsg.user user_input])) toolsUsed0 0)

/-! ## The deterministic depth-intent fan-out
(src/clients/streamlit_sse_client.py)

The "Check Queue Depth" smart workflow (lines 290-335) resolves a queue
name deterministically: it searches the directory through
`search_qmgr_dump`, extracts queue-manager names from the rendered
search output with `extract_qmgrs_from_search` (lines 121-129), and
runs the depth command once per extracted manager, labelling each
result by its manager. -/

/-- The character class `[A-Z0-9_\.]` under `re.IGNORECASE`: ASCII
letters of either case, digits, underscore, dot. -/
def qmgrNameChar (c : Char) : Bool :=
  c.isAlpha || c.isDigit || c == '_' || c == '.'

/-- Try `Queue Manager:\s*([A-Z0-9_\.]+)` (case-insensitive) anchored at
the start of `l`; on success return the captured group. Since the class
contains no whitespace, the greedy `\s*` never backtracks. -/
def qmgrPatternHere (l : List Char) : Option (List Char) :=
  let pat := "Queue Manager:".data
  if isPrefixCI pat l then
    let rest := (l.drop pat.length).dropWhile Char.isWhitespace
    let run := rest.takeWhile qmgrNameChar
    if run.isEmpty then none else some run
  else none

/-- `re.search` of the pattern in one line: try each start position,
left to right. -/
def searchQmgrPattern : List Char → Option (List Char)
  | [] => none
  | c :: rest =>
    match qmgrPatternHere (c :: rest) with
    | some g => some g
    | none => searchQmgrPattern rest

/-- Python `str.split('\n')` (accumulator reversed per line). -/
def splitLinesAux (cur : List Char) : List Char → List (List Char)
  | [] => [cur.reverse]
  | c :: rest =>
    if c == '\n' then cur.reverse :: splitLinesAux [] rest
    else splitLinesAux (c :: cur) rest

/-- Python `str.split('\n')`. -/
def pySplitLines (s : String) : List (List Char) :=
  splitLinesAux [] s.data

/-- `extract_qmgrs_from_search` (streamlit_sse_client.py lines
121-129): per output line, `re.search(r'Queue Manager:\s*([A-Z0-9_\.]+)',
line, re.IGNORECASE)`, collecting the stripped captures into a set.
Python returns `list(qmgrs)` of a `set`, whose iteration order is
unspecified; the set's contents are modelled as the first-occurrence
deduplication of the per-line captures. -/
def extract_qmgrs_from_search (search_output : String) : List String :=
  dedupFirst ((pySplitLines search_output).filterMap
    (fun line => (searchQmgrPattern line).map (fun g => pyStrip ⟨g⟩)))

/-- `detect_queue_type`'s depth command (lines 152-172), applied to the
already stripped-and-uppercased queue name: `QR` prefix shows the
remote definition, `QA` the alias definition, anything else CURDEPTH. -/
def depthCommandTemplate (queue_name : String) : String :=
  if pyStartsWith queue_name "QR" then "DISPLAY QREMOTE(" ++ queue_name ++ ")"
  else if pyStartsWith queue_name "QA" then "DISPLAY QALIAS(" ++ queue_name ++ ")"
  else "DISPLAY QLOCAL(" ++ queue_name ++ ") CURDEPTH"

/-- Step 3 of the smart workflow (lines 328-335): run the depth command
once per extracted queue manager, keying each result by its manager
("runmqsc on {qmgr}"). An empty extraction issues no commands (the
workflow only warns, lines 323-324). -/
def checkDepthFanOut (runCommand : String → String → String)
    (search_res : String) (queue_name : String) : List (String × String) :=
  (extract_qmgrs_from_search search_res).map
    (fun qmgr => (qmgr, runCommand qmgr (depthCommandTemplate queue_name)))

/-- The whole "Check Queue Depth" workflow (lines 294-335): normalise
the input name (strip, uppercase), search the directory, extract
managers from the rendered output, fan the depth command out over
them. -/
def checkDepthWorkflow (runCommand : String → String → String)
    (prefixes : List String) (rows : List Row) (queue_name_raw : String) :
    List (String × String) :=
  let queue_name := pyUpper (pyStrip queue_name_raw)
  checkDepthFanOut runCommand (search_qmgr_dump prefixes rows queue_name none) queue_name

/-! ## Helper lemmas -/

/-- The gate's boolean verdict is the prefix disjunction. -/
theorem is_hostname_allowed_fst (prefixes : List String) (hostname : String) :
    (is_hostname_allowed prefixes hostname).fst =
      prefixes.any (fun p => pyStartsWith (pyStrip (pyLower hostname)) (pyLower p)) := by
  simp only [is_hostname_allowed]
  split <;> simp_all

/-- A string starting with `Q`, then `x`, then `.` cannot also start
with `Q`, then a different `y`, then `.`. -/
theorem startsWith_Qx_not_Qy (s : String) (x y : Char) (hxy : y ≠ x)
    (h : pyStartsWith s ⟨['Q', x, '.']⟩ = true) :
    pyStartsWith s ⟨['Q', y, '.']⟩ = false := by
  unfold pyStartsWith at h ⊢
  rcases hd : s.data with _ | ⟨a, _ | ⟨b, l⟩⟩ <;> rw [hd] at h <;> simp at h ⊢
  obtain ⟨-, hx, -⟩ := h
  subst hx
  have hyx : (y == x) = false := beq_eq_false_iff_ne.mpr hxy
  simp [List.isPrefixOf, hyx]

/-! ## C5: the gate is the case-insensitive prefix test, order-independent -/

/-- C5: `is_hostname_allowed` returns true iff the trimmed, lower-cased
hostname starts with the lower-cased form of at least one configured
allow-list entry, and the boolean verdict is unchanged under any
permutation of the configured list. -/
theorem c5_gate_prefix_iff_and_perm_invariant (prefixes : List String) (hostname : String) :
    ((is_hostname_allowed prefixes hostname).fst = true ↔
      ∃ p ∈ prefixes, pyStartsWith (pyStrip (pyLower hostname)) (pyLower p) = true)
    ∧ ∀ prefixes2 : List String, prefixes.Perm prefixes2 →
        (is_hostname_allowed prefixes hostname).fst =
          (is_hostname_allowed prefixes2 hostname).fst := by
  constructor
  · rw [is_hostname_allowed_fst, List.any_eq_true]
  · intro prefixes2 hperm
    rw [is_hostname_allowed_fst, is_hostname_allowed_fst, Bool.eq_iff_iff,
      List.any_eq_true, List.any_eq_true]
    constructor
    · rintro ⟨p, hp, hf⟩
      exact ⟨p, hperm.mem_iff.mp hp, hf⟩
    · rintro ⟨p, hp, hf⟩
      exact ⟨p, hperm.mem_iff.mpr hp, hf⟩

/-- Witness for C5 at a concrete hostname and a concrete permutation. -/
theorem c5_witness :
    (is_hostname_allowed ["lod", "loq", "lot"] " LODalhost ").fst = true
    ∧ (is_hostname_allowed ["lod", "loq", "lot"] " LODalhost ").fst =
        (is_hostname_allowed ["lot", "lod", "loq"] " LODalhost ").fst := by
  constructor
  · exact (c5_gate_prefix_iff_and_perm_invariant ["lod", "loq", "lot"] " LODalhost ").1.mpr
      ⟨"lod", by decide, by decide⟩
  · exact (c5_gate_prefix_iff_and_perm_invariant ["lod", "loq", "lot"] " LODalhost ").2
      ["lot", "lod", "loq"] (by decide)

/-! ## C7: prefix-based type inference and the QUEUES union -/

/-- C7: with no explicit object type, the filter is inferred from the
upper-cased query's prefix — `QL.` gives QLOCAL, `QA.` QALIAS, `QR.`
QREMOTE, anything else no filter — and a filter value whose upper-case
form is `QUEUES` keeps exactly the rows whose object type is one of
QLOCAL, QREMOTE, QMODEL, QALIAS. -/
theorem c7_type_inference_and_queues_union :
    (∀ q : String,
      (pyStartsWith (pyUpper q) "QL." = true → inferType q none = some "QLOCAL")
      ∧ (pyStartsWith (pyUpper q) "QA." = true → inferType q none = some "QALIAS")
      ∧ (pyStartsWith (pyUpper q) "QR." = true → inferType q none = some "QREMOTE")
      ∧ (pyStartsWith (pyUpper q) "QL." = false → pyStartsWith (pyUpper q) "QA." = false →
          pyStartsWith (pyUpper q) "QR." = false → inferType q none = none))
    ∧ ∀ (t : String) (ms : List Row), pyUpper t = "QUEUES" →
        typeFilter (some t) ms =
          ms.filter (fun r => queueTypes.contains (pyUpper r.object_type)) := by
  constructor
  · intro q
    refine ⟨fun h1 => ?_, fun h1 => ?_, fun h1 => ?_, fun h1 h2 h3 => ?_⟩
    · simp [inferType, truthyOpt, h1]
    · have hql : pyStartsWith (pyUpper q) "QL." = false := by
        have := startsWith_Qx_not_Qy (pyUpper q) 'A' 'L' (by decide)
        rw [show (⟨['Q', 'A', '.']⟩ : String) = "QA." by decide,
          show (⟨['Q', 'L', '.']⟩ : String) = "QL." by decide] at this
        exact this h1
      simp [inferType, truthyOpt, hql, h1]
    · have hql : pyStartsWith (pyUpper q) "QL." = false := by
        have := startsWith_Qx_not_Qy (pyUpper q) 'R' 'L' (by decide)
        rw [show (⟨['Q', 'R', '.']⟩ : String) = "QR." by decide,
          show (⟨['Q', 'L', '.']⟩ : String) = "QL." by decide] at this
        exact this h1
      have hqa : pyStartsWith (pyUpper q) "QA." = false := by
        have := startsWith_Qx_not_Qy (pyUpper q) 'R' 'A' (by decide)
        rw [show (⟨['Q', 'R', '.']⟩ : String) = "QR." by decide,
          show (⟨['Q', 'A', '.']⟩ : String) = "QA." by decide] at this
        exact this h1
      simp [inferType, truthyOpt, hql, hqa, h1]
    · simp [inferType, truthyOpt, h1, h2, h3]
  · intro t ms ht
    have hne : t.data ≠ [] := by
      intro h0
      have ht2 : pyUpper t = "QUEUES" := ht
      rw [pyUpper, h0] at ht2
      exact absurd (congrArg String.data ht2) (by decide)
    have htruthy : truthyOpt (some t) = true := by
      simp only [truthyOpt, strEmpty, Bool.not_eq_true']
      rw [List.isEmpty_eq_false_iff_exists_mem]
      cases hd : t.data with
      | nil => exact absurd hd hne
      | cons a l => exact ⟨a, by simp⟩
    simp [typeFilter, htruthy, Option.getD, ht]

/-- Witness for C7 at concrete queries and a concrete row list. -/
theorem c7_witness :
    inferType "ql.in.app1" none = some "QLOCAL"
    ∧ typeFilter (some "queues")
        [Row.mk "d" "h" "m" "QLOCAL" "x", Row.mk "d" "h" "m" "CHANNEL" "y"]
        = [Row.mk "d" "h" "m" "QLOCAL" "x"] := by
  constructor
  · exact (c7_type_inference_and_queues_union.1 "ql.in.app1").1 (by decide)
  · exact (c7_type_inference_and_queues_union.2 "queues"
      [Row.mk "d" "h" "m" "QLOCAL" "x", Row.mk "d" "h" "m" "CHANNEL" "y"] (by decide)).trans
      (by decide)

/-! ## C10: snapshot lookup uses only the first matching row -/

/-- C10: for a `runmqsc` call with no explicit hostname and a non-empty
snapshot whose queue-manager filter is non-empty, the dispatch hostname
is the first matching row's trimmed hostname and the gate verdict is
computed from that row alone — the remaining matching rows, allowed or
not, do not influence the outcome. -/
theorem c10_first_row_resolution (prefixes : List String) (urlBase : String)
    (rows : List Row) (qmgr_name mqsc_command : String) (r0 : Row) (rest : List Row)
    (hne : rows ≠ [])
    (hmatch : qmgrRowMatches rows qmgr_name = r0 :: rest) :
    runmqsc prefixes urlBase rows qmgr_name mqsc_command none =
      (if (is_hostname_allowed prefixes (pyStrip r0.hostname)).fst then
        RunmqscAction.dispatch (pyStrip r0.hostname)
          (mkRunmqscUrl urlBase (pyStrip r0.hostname) qmgr_name) mqsc_command
      else RunmqscAction.refuse (is_hostname_allowed prefixes (pyStrip r0.hostname)).snd) := by
  have hempty : rows.isEmpty = false := by
    cases rows with
    | nil => exact absurd rfl hne
    | cons a l => rfl
  simp [runmqsc, truthyOpt, hempty, hmatch]

/-- Witness for C10: the first matching row is restricted, a later row
for the same queue manager is allowed, and the command is refused. -/
theorem c10_witness :
    runmqsc ["lod"] "https://localhost/"
      [Row.mk "d" "lopalhost" "MQQMGR2" "QLOCAL" "x",
       Row.mk "d" "lodalhost" "MQQMGR2" "QLOCAL" "y"]
      "mqqmgr2" "DISPLAY QMGR" none
      = RunmqscAction.refuse (is_hostname_allowed ["lod"] "lopalhost").snd :=
  (c10_first_row_resolution ["lod"] "https://localhost/"
    [Row.mk "d" "lopalhost" "MQQMGR2" "QLOCAL" "x",
     Row.mk "d" "lodalhost" "MQQMGR2" "QLOCAL" "y"]
    "mqqmgr2" "DISPLAY QMGR"
    (Row.mk "d" "lopalhost" "MQQMGR2" "QLOCAL" "x")
    [Row.mk "d" "lodalhost" "MQQMGR2" "QLOCAL" "y"]
    (by decide) (by decide)).trans (by decide)

/-! ## C2: the gate before dispatch — violated on the fallback path -/

/-- C2 counterexample: with an empty snapshot and no explicit hostname,
`runmqsc` dispatches to the queue-manager name used as hostname even
though that hostname fails the gate — so a command is sent to a
hostname the gate rejects, contradicting the claim. -/
theorem c2_counterexample :
    runmqsc ["lod", "loq", "lot"] "https://localhost:9443/ibmmq/rest/v2/" []
        "lopalhost" "DISPLAY QMGR" none
      = RunmqscAction.dispatch "lopalhost"
          "https://lopalhost:9443/ibmmq/rest/v2/action/qmgr/lopalhost/mqsc" "DISPLAY QMGR"
    ∧ (is_hostname_allowed ["lod", "loq", "lot"] "lopalhost").fst = false := by
  decide

/-- C2 amended: every dispatch target either passed the gate (the
explicit-hostname and snapshot-lookup paths both gate before dispatch),
or arose from the ungated fallback — no explicit hostname and no
snapshot row for the queue manager — in which case the target is the
queue-manager name itself, dispatched without any gate check. -/
theorem c2_gate_before_dispatch_amended (prefixes : List String) (urlBase : String)
    (rows : List Row) (qmgr_name mqsc_command : String) (hostname : Option String)
    (t u c : String)
    (hdisp : runmqsc prefixes urlBase rows qmgr_name mqsc_command hostname
      = RunmqscAction.dispatch t u c) :
    (is_hostname_allowed prefixes t).fst = true
    ∨ (truthyOpt hostname = false ∧ qmgrRowMatches rows qmgr_name = [] ∧ t = qmgr_name) := by
  cases h1 : truthyOpt hostname with
  | true =>
    cases hgate : (is_hostname_allowed prefixes (pyStrip (hostname.getD ""))).fst with
    | true =>
      simp [runmqsc, h1, hgate] at hdisp
      obtain ⟨ht, -, -⟩ := hdisp
      left
      rw [← ht]
      exact hgate
    | false =>
      simp [runmqsc, h1, hgate] at hdisp
  | false =>
    cases h2 : rows.isEmpty with
    | true =>
      simp [runmqsc, h1, h2] at hdisp
      obtain ⟨ht, -, -⟩ := hdisp
      right
      exact ⟨rfl, by simp [qmgrRowMatches, List.isEmpty_iff.mp h2], ht.symm⟩
    | false =>
      cases hh : (qmgrRowMatches rows qmgr_name).head? with
      | none =>
        simp [runmqsc, h1, h2, hh] at hdisp
        obtain ⟨ht, -, -⟩ := hdisp
        right
        exact ⟨rfl, List.head?_eq_none_iff.mp hh, ht.symm⟩
      | some r0 =>
        cases hgate : (is_hostname_allowed prefixes (pyStrip r0.hostname)).fst with
        | true =>
          simp [runmqsc, h1, h2, hh, hgate] at hdisp
          obtain ⟨ht, -, -⟩ := hdisp
          left
          rw [← ht]
          exact hgate
        | false =>
          simp [runmqsc, h1, h2, hh, hgate] at hdisp

/-- Witness for C2's amended statement: a snapshot lookup that
dispatches did pass the gate. -/
theorem c2_witness :
    (is_hostname_allowed ["lod"] "lodalhost").fst = true
    ∨ (truthyOpt (none : Option String) = false
        ∧ qmgrRowMatches [Row.mk "d" "lodalhost" "MQQMGR1" "QLOCAL" "x"] "MQQMGR1" = []
        ∧ "lodalhost" = "MQQMGR1") :=
  c2_gate_before_dispatch_amended ["lod"] "https://localhost/"
    [Row.mk "d" "lodalhost" "MQQMGR1" "QLOCAL" "x"] "MQQMGR1" "DISPLAY QMGR" none
    "lodalhost" "https://lodalhost/action/qmgr/MQQMGR1/mqsc" "DISPLAY QMGR" (by decide)

/-! ## C3: the deterministic fan-out is starved by its own extraction -/

/-- C3 (code bug): the deterministic "Check Queue Depth" workflow is
built to fan out over every queue manager hosting the queue — but its
extraction step looks for `Queue Manager:` labels while
`search_qmgr_dump` renders `QM:<name> Host:<host> Type:<type>` lines,
so at a directory that lists the queue on two allowed queue managers
the workflow extracts no manager at all and issues zero follow-up
commands, where the claim (and the extraction's own purpose, "Parse
search_qmgr_dump output to find queue manager names") requires exactly
one command per hosting manager. -/
theorem c3_depth_workflow_issues_zero_commands :
    dedupFirst ((allowedMatches ["lod"]
        [Row.mk "d" "lodalhost1" "MQQMGR1" "QLOCAL" "DEFINE QLOCAL(QL.IN.APP1)",
         Row.mk "d" "lodalhost2" "MQQMGR2" "QLOCAL" "DEFINE QLOCAL(QL.IN.APP1)"]
        "QL.IN.APP1" none).map Row.qmgr) = ["MQQMGR1", "MQQMGR2"]
    ∧ extract_qmgrs_from_search
        (search_qmgr_dump ["lod"]
          [Row.mk "d" "lodalhost1" "MQQMGR1" "QLOCAL" "DEFINE QLOCAL(QL.IN.APP1)",
           Row.mk "d" "lodalhost2" "MQQMGR2" "QLOCAL" "DEFINE QLOCAL(QL.IN.APP1)"]
          "QL.IN.APP1" none) = []
    ∧ checkDepthWorkflow (fun qmgr _ => qmgr ++ ":ok") ["lod"]
        [Row.mk "d" "lodalhost1" "MQQMGR1" "QLOCAL" "DEFINE QLOCAL(QL.IN.APP1)",
         Row.mk "d" "lodalhost2" "MQQMGR2" "QLOCAL" "DEFINE QLOCAL(QL.IN.APP1)"]
        "ql.in.app1" = [] := by
  decide

/-! ## Loop helper lemmas -/

/-- Executing a response's OpenAI tool calls appends the call records
and the results, in call order. -/
theorem oaExec_spec (ct : String → String → String) (tcs : List OAToolCall) (st : OAState) :
    oaExecToolCalls ct tcs st =
      { st with
        toolsUsed := st.toolsUsed ++ tcs.map (fun tc => ToolRec.mk tc.name tc.arguments),
        history := st.history ++
          tcs.map (fun tc => OAMsg.toolResult tc.id tc.name (ct tc.name tc.arguments)) } := by
  induction tcs generalizing st with
  | nil => simp [oaExecToolCalls]
  | cons tc rest ih =>
    rw [show oaExecToolCalls ct (tc :: rest) st
        = oaExecToolCalls ct rest
            { st with
              toolsUsed := st.toolsUsed ++ [ToolRec.mk tc.name tc.arguments],
              history := st.history ++
                [OAMsg.toolResult tc.id tc.name (ct tc.name tc.arguments)] } from rfl]
    rw [ih]
    simp

/-- The inner fold of `aProcessBlocks` appends one record and one keyed
result per tool-use block, in block order. -/
theorem aProcessFold (ct : String → String → String) (blocks : List ABlock) :
    ∀ acc : List ToolRec × List (String × String),
      blocks.foldl
        (fun (acc : List ToolRec × List (String × String)) b =>
          match b with
          | ABlock.toolUse id name input =>
            (acc.1 ++ [ToolRec.mk name input], acc.2 ++ [(id, ct name input)])
          | _ => acc)
        acc
      = (acc.1 ++ (aToolUses blocks).map (fun b => ToolRec.mk b.2.1 b.2.2),
         acc.2 ++ (aToolUses blocks).map (fun b => (b.1, ct b.2.1 b.2.2))) := by
  induction blocks with
  | nil => intro acc; simp [aToolUses]
  | cons b rest ih =>
    intro acc
    cases b with
    | textBlock t =>
      simp only [List.foldl_cons]
      rw [ih]
      simp [aToolUses, List.filterMap_cons]
    | toolUse i n inp =>
      simp only [List.foldl_cons]
      rw [ih]
      simp [aToolUses, List.filterMap_cons]

/-- `aProcessBlocks` in closed form: record appends in block order and
one user message holding the keyed results in that same order. -/
theorem aProcess_spec (ct : String → String → String) (blocks : List ABlock) (st : AState) :
    aProcessBlocks ct blocks st =
      { st with
        toolsUsed := st.toolsUsed ++ (aToolUses blocks).map (fun b => ToolRec.mk b.2.1 b.2.2),
        history := st.history ++
          [AMsg.userToolResults ((aToolUses blocks).map (fun b => (b.1, ct b.2.1 b.2.2)))] } := by
  simp only [aProcessBlocks]
  rw [aProcessFold]
  simp

/-- The OpenAI loop with only tool-requesting responses in the budget
returns the budget-exhausted message after exactly `fuel` provider
calls. -/
theorem oaLoop_max (provider : Nat → OAResponse) (ct : String → String → String) :
    ∀ (fuel : Nat) (st : OAState),
      (∀ k, k < fuel → (provider (st.providerCalls + k)).toolCalls.isEmpty = false) →
      (oaChatLoop provider ct fuel st).fst = maxIterationsMsg
      ∧ (oaChatLoop provider ct fuel st).snd.providerCalls = st.providerCalls + fuel := by
  intro fuel
  induction fuel with
  | zero => intro st _; simp [oaChatLoop]
  | succ n ih =>
    intro st h
    have h0 : (provider st.providerCalls).toolCalls.isEmpty = false := by
      simpa using h 0 (Nat.succ_pos n)
    have hstep : oaChatLoop provider ct (n + 1) st
        = oaChatLoop provider ct n
            (oaExecToolCalls ct (provider st.providerCalls).toolCalls
              { st with
                providerCalls := st.providerCalls + 1,
                history := st.history ++ [OAMsg.assistantToolMsg (provider st.providerCalls)] }) := by
      simp [oaChatLoop, h0]
    rw [hstep]
    have hpc : (oaExecToolCalls ct (provider st.providerCalls).toolCalls
        { st with
          providerCalls := st.providerCalls + 1,
          history := st.history ++
            [OAMsg.assistantToolMsg (provider st.providerCalls)] }).providerCalls
        = st.providerCalls + 1 := by
      rw [oaExec_spec]
    obtain ⟨hf, hc⟩ := ih _ (by
      intro k hk
      rw [hpc, show st.providerCalls + 1 + k = st.providerCalls + (k + 1) by omega]
      exact h (k + 1) (by omega))
    refine ⟨hf, ?_⟩
    rw [hc, hpc]
    omega

/-- The OpenAI loop returns the first tool-free response's text, making
one provider call past the tool-requesting ones. -/
theorem oaLoop_done (provider : Nat → OAResponse) (ct : String → String → String) :
    ∀ (fuel i : Nat) (st : OAState),
      i < fuel →
      (provider (st.providerCalls + i)).toolCalls.isEmpty = true →
      (∀ k, k < i → (provider (st.providerCalls + k)).toolCalls.isEmpty = false) →
      (oaChatLoop provider ct fuel st).fst = (provider (st.providerCalls + i)).content.getD ""
      ∧ (oaChatLoop provider ct fuel st).snd.providerCalls = st.providerCalls + i + 1 := by
  intro fuel
  induction fuel with
  | zero => intro i st hi; exact absurd hi (Nat.not_lt_zero i)
  | succ n ih =>
    intro i st hi hdone hbefore
    cases i with
    | zero =>
      rw [Nat.add_zero] at hdone
      constructor
      · simp [oaChatLoop, hdone]
      · simp [oaChatLoop, hdone]
    | succ j =>
      have h0 : (provider st.providerCalls).toolCalls.isEmpty = false := by
        simpa using hbefore 0 (Nat.succ_pos j)
      have hstep : oaChatLoop provider ct (n + 1) st
          = oaChatLoop provider ct n
              (oaExecToolCalls ct (provider st.providerCalls).toolCalls
                { st with
                  providerCalls := st.providerCalls + 1,
                  history := st.history ++
                    [OAMsg.assistantToolMsg (provider st.providerCalls)] }) := by
        simp [oaChatLoop, h0]
      rw [hstep]
      have hpc : (oaExecToolCalls ct (provider st.providerCalls).toolCalls
          { st with
            providerCalls := st.providerCalls + 1,
            history := st.history ++
              [OAMsg.assistantToolMsg (provider st.providerCalls)] }).providerCalls
          = st.providerCalls + 1 := by
        rw [oaExec_spec]

      obtain ⟨hf, hc⟩ := ih j _ (Nat.lt_of_succ_lt_succ hi)
        (by
          rw [hpc, show st.providerCalls + 1 + j = st.providerCalls + (j + 1) by omega]
          exact hdone)
        (by
          intro k hk
          rw [hpc, show st.providerCalls + 1 + k = st.providerCalls + (k + 1) by omega]
          exact hbefore (k + 1) (by omega))
      rw [hpc] at hf hc
      refine ⟨?_, ?_⟩
      · rw [hf, show st.providerCalls + 1 + j = st.providerCalls + (j + 1) by omega]
      · rw [hc]
        omega

/-- The Anthropic loop with only tool-requesting responses in the
budget returns the budget-exhausted message after exactly `fuel`
provider calls. -/
theorem aLoop_max (provider : Nat → List ABlock) (ct : String → String → String) :
    ∀ (fuel : Nat) (st : AState),
      (∀ k, k < fuel → aHasToolUse (provider (st.providerCalls + k)) = true) →
      (aChatLoop provider ct fuel st).fst = maxIterationsMsg
      ∧ (aChatLoop provider ct fuel st).snd.providerCalls = st.providerCalls + fuel := by
  intro fuel
  induction fuel with
  | zero => intro st _; simp [aChatLoop]
  | succ n ih =>
    intro st h
    have h0 : aHasToolUse (provider st.providerCalls) = true := by
      simpa using h 0 (Nat.succ_pos n)
    have hstep : aChatLoop provider ct (n + 1) st
        = aChatLoop provider ct n
            (aProcessBlocks ct (provider st.providerCalls)
              { st with
                providerCalls := st.providerCalls + 1,
                history := st.history ++ [AMsg.assistantBlocks (provider st.providerCalls)] }) := by
      simp [aChatLoop, h0]
    rw [hstep]
    have hpc : (aProcessBlocks ct (provider st.providerCalls)
        { st with
          providerCalls := st.providerCalls + 1,
          history := st.history ++
            [AMsg.assistantBlocks (provider st.providerCalls)] }).providerCalls
        = st.providerCalls + 1 := by
      rw [aProcess_spec]
    obtain ⟨hf, hc⟩ := ih _ (by
      intro k hk
      rw [hpc, show st.providerCalls + 1 + k = st.providerCalls + (k + 1) by omega]
      exact h (k + 1) (by omega))
    refine ⟨hf, ?_⟩
    rw [hc, hpc]
    omega

/-- The Anthropic loop returns the first tool-free response's first
text block, making one provider call past the tool-requesting ones. -/
theorem aLoop_done (provider : Nat → List ABlock) (ct : String → String → String) :
    ∀ (fuel i : Nat) (st : AState),
      i < fuel →
      aHasToolUse (provider (st.providerCalls + i)) = false →
      (∀ k, k < i → aHasToolUse (provider (st.providerCalls + k)) = true) →
      (aChatLoop provider ct fuel st).fst = aFirstText (provider (st.providerCalls + i))
      ∧ (aChatLoop provider ct fuel st).snd.providerCalls = st.providerCalls + i + 1 := by
  intro fuel
  induction fuel with
  | zero => intro i st hi; exact absurd hi (Nat.not_lt_zero i)
  | succ n ih =>
    intro i st hi hdone hbefore
    cases i with
    | zero =>
      rw [Nat.add_zero] at hdone
      constructor
      · simp [aChatLoop, hdone]
      · simp [aChatLoop, hdone]
    | succ j =>
      have h0 : aHasToolUse (provider st.providerCalls) = true := by
        simpa using hbefore 0 (Nat.succ_pos j)
      have hstep : aChatLoop provider ct (n + 1) st
          = aChatLoop provider ct n
              (aProcessBlocks ct (provider st.providerCalls)
                { st with
                  providerCalls := st.providerCalls + 1,
                  history := st.history ++
                    [AMsg.assistantBlocks (provider st.providerCalls)] }) := by
        simp [aChatLoop, h0]
      rw [hstep]
      have hpc : (aProcessBlocks ct (provider st.providerCalls)
          { st with
            providerCalls := st.providerCalls + 1,
            history := st.history ++
              [AMsg.assistantBlocks (provider st.providerCalls)] }).providerCalls
          = st.providerCalls + 1 := by
        rw [aProcess_spec]
      obtain ⟨hf, hc⟩ := ih j _ (Nat.lt_of_succ_lt_succ hi)
        (by
          rw [hpc, show st.providerCalls + 1 + j = st.providerCalls + (j + 1) by omega]
          exact hdone)
        (by
          intro k hk
          rw [hpc, show st.providerCalls + 1 + k = st.providerCalls + (k + 1) by omega]
          exact hbefore (k + 1) (by omega))
      rw [hpc] at hf hc
      refine ⟨?_, ?_⟩
      · rw [hf, show st.providerCalls + 1 + j = st.providerCalls + (j + 1) by omega]
      · rw [hc]
        omega

/-! ## C4: bounded loop termination in both providers -/

/-- C4: in both provider loops, if the response at some iteration
within the 10-iteration budget requests no tools (every earlier one
requesting tools), its text is returned after exactly that many
provider calls plus one; if every response within the budget requests
tools, the fixed maximum-iterations error message is returned after
exactly 10 provider calls, never more. -/
theorem c4_loop_terminates_within_budget :
    (∀ (provider : Nat → OAResponse) (ct : String → String → String)
       (u : String) (h0 : List OAMsg) (t0 : List ToolRec) (i : Nat),
       i < maxIterations →
       (provider i).toolCalls.isEmpty = true →
       (∀ k, k < i → (provider k).toolCalls.isEmpty = false) →
       (oaChat provider ct u h0 t0).fst = (provider i).content.getD ""
       ∧ (oaChat provider ct u h0 t0).snd.providerCalls = i + 1)
    ∧ (∀ (provider : Nat → OAResponse) (ct : String → String → String)
       (u : String) (h0 : List OAMsg) (t0 : List ToolRec),
       (∀ k, k < maxIterations → (provider k).toolCalls.isEmpty = false) →
       (oaChat provider ct u h0 t0).fst = maxIterationsMsg
       ∧ (oaChat provider ct u h0 t0).snd.providerCalls = maxIterations)
    ∧ (∀ (provider : Nat → List ABlock) (ct : String → String → String)
       (u : String) (h0 : List AMsg) (t0 : List ToolRec) (i : Nat),
       i < maxIterations →
       aHasToolUse (provider i) = false →
       (∀ k, k < i → aHasToolUse (provider k) = true) →
       (aChat provider ct u h0 t0).fst = aFirstText (provider i)
       ∧ (aChat provider ct u h0 t0).snd.providerCalls = i + 1)
    ∧ (∀ (provider : Nat → List ABlock) (ct : String → String → String)
       (u : String) (h0 : List AMsg) (t0 : List ToolRec),
       (∀ k, k < maxIterations → aHasToolUse (provider k) = true) →
       (aChat provider ct u h0 t0).fst = maxIterationsMsg
       ∧ (aChat provider ct u h0 t0).snd.providerCalls = maxIterations) := by
  refine ⟨?_, ?_, ?_, ?_⟩
  · intro provider ct u h0 t0 i hi hdone hbefore
    obtain ⟨hf, hc⟩ := oaLoop_done provider ct maxIterations i
      (OAState.mk (pruneHistory (h0 ++ [OAMsg.user u])) t0 0) hi
      (by simpa using hdone) (fun k hk => by simpa using hbefore k hk)
    refine ⟨?_, ?_⟩
    · rw [show oaChat provider ct u h0 t0
        = oaChatLoop provider ct maxIterations
            (OAState.mk (pruneHistory (h0 ++ [OAMsg.user u])) t0 0) from rfl, hf]
      simp
    · rw [show oaChat provider ct u h0 t0
        = oaChatLoop provider ct maxIterations
            (OAState.mk (pruneHistory (h0 ++ [OAMsg.user u])) t0 0) from rfl, hc]
      simp
  · intro provider ct u h0 t0 hall
    obtain ⟨hf, hc⟩ := oaLoop_max provider ct maxIterations
      (OAState.mk (pruneHistory (h0 ++ [OAMsg.user u])) t0 0)
      (fun k hk => by simpa using hall k hk)
    refine ⟨?_, ?_⟩
    · rw [show oaChat provider ct u h0 t0
        = oaChatLoop provider ct maxIterations
            (OAState.mk (pruneHistory (h0 ++ [OAMsg.user u])) t0 0) from rfl, hf]
    · rw [show oaChat provider ct u h0 t0
        = oaChatLoop provider ct maxIterations
            (OAState.mk (pruneHistory (h0 ++ [OAMsg.user u])) t0 0) from rfl, hc]
      simp
  · intro provider ct u h0 t0 i hi hdone hbefore
    obtain ⟨hf, hc⟩ := aLoop_done provider ct maxIterations i
      (AState.mk (pruneHistory (h0 ++ [AMsg.user u])) t0 0) hi
      (by simpa using hdone) (fun k hk => by simpa using hbefore k hk)
    refine ⟨?_, ?_⟩
    · rw [show aChat provider ct u h0 t0
        = aChatLoop provider ct maxIterations
            (AState.mk (pruneHistory (h0 ++ [AMsg.user u])) t0 0) from rfl, hf]
      simp
    · rw [show aChat provider ct u h0 t0
        = aChatLoop provider ct maxIterations
            (AState.mk (pruneHistory (h0 ++ [AMsg.user u])) t0 0) from rfl, hc]
      simp
  · intro provider ct u h0 t0 hall
    obtain ⟨hf, hc⟩ := aLoop_max provider ct maxIterations
      (AState.mk (pruneHistory (h0 ++ [AMsg.user u])) t0 0)
      (fun k hk => by simpa using hall k hk)
    refine ⟨?_, ?_⟩
    · rw [show aChat provider ct u h0 t0
        = aChatLoop provider ct maxIterations
            (AState.mk (pruneHistory (h0 ++ [AMsg.user u])) t0 0) from rfl, hf]
    · rw [show aChat provider ct u h0 t0
        = aChatLoop provider ct maxIterations
            (AState.mk (pruneHistory (h0 ++ [AMsg.user u])) t0 0) from rfl, hc]
      simp

/-- Witness for C4: a provider that answers immediately terminates in
one call with its text; providers that always request tools exhaust the
budget in exactly 10 calls, in both loop embeddings. -/
theorem c4_witness :
    ((oaChat (fun _ => OAResponse.mk (some "hello") []) (fun _ _ => "r") "q" [] []).fst = "hello"
      ∧ (oaChat (fun _ => OAResponse.mk (some "hello") []) (fun _ _ => "r") "q" [] []).snd.providerCalls = 1)
    ∧ ((oaChat (fun _ => OAResponse.mk (some "t") [OAToolCall.mk "1" "dspmq" ""]) (fun _ _ => "r") "q" [] []).fst = maxIterationsMsg
      ∧ (oaChat (fun _ => OAResponse.mk (some "t") [OAToolCall.mk "1" "dspmq" ""]) (fun _ _ => "r") "q" [] []).snd.providerCalls = maxIterations)
    ∧ ((aChat (fun _ => [ABlock.textBlock "hi"]) (fun _ _ => "r") "q" [] []).fst = "hi"
      ∧ (aChat (fun _ => [ABlock.textBlock "hi"]) (fun _ _ => "r") "q" [] []).snd.providerCalls = 1)
    ∧ ((aChat (fun _ => [ABlock.toolUse "1" "dspmq" ""]) (fun _ _ => "r") "q" [] []).fst = maxIterationsMsg
      ∧ (aChat (fun _ => [ABlock.toolUse "1" "dspmq" ""]) (fun _ _ => "r") "q" [] []).snd.providerCalls = maxIterations) := by
  refine ⟨?_, ?_, ?_, ?_⟩
  · exact c4_loop_terminates_within_budget.1 (fun _ => OAResponse.mk (some "hello") [])
      (fun _ _ => "r") "q" [] [] 0 (by decide) (by decide)
      (fun k hk => absurd hk (Nat.not_lt_zero k))
  · exact c4_loop_terminates_within_budget.2.1 (fun _ => OAResponse.mk (some "t") [OAToolCall.mk "1" "dspmq" ""])
      (fun _ _ => "r") "q" [] [] (fun k _ => rfl)
  · exact c4_loop_terminates_within_budget.2.2.1 (fun _ => [ABlock.textBlock "hi"])
      (fun _ _ => "r") "q" [] [] 0 (by decide) (by decide)
      (fun k hk => absurd hk (Nat.not_lt_zero k))
  · exact c4_loop_terminates_within_budget.2.2.2 (fun _ => [ABlock.toolUse "1" "dspmq" ""])
      (fun _ _ => "r") "q" [] [] (fun k _ => rfl)

/-! ## C6: tools run and log in the requested order -/

/-- C6: in both providers, the tools requested together in one response
are executed synchronously in the listed order — the usage log gains
exactly the `{name, args}` records in that order, and the history gains
the tools' results in that same order (OpenAI: one tool message per
result; Anthropic: one user message holding the keyed results in
order) — all before the next provider call, which receives the state
produced by that processing. -/
theorem c6_tools_execute_in_request_order :
    (∀ (ct : String → String → String) (tcs : List OAToolCall) (st : OAState),
      (oaExecToolCalls ct tcs st).toolsUsed
          = st.toolsUsed ++ tcs.map (fun tc => ToolRec.mk tc.name tc.arguments)
      ∧ (oaExecToolCalls ct tcs st).history
          = st.history ++ tcs.map (fun tc => OAMsg.toolResult tc.id tc.name (ct tc.name tc.arguments)))
    ∧ (∀ (provider : Nat → OAResponse) (ct : String → String → String) (fuel : Nat) (st : OAState),
        (provider st.providerCalls).toolCalls.isEmpty = false →
        oaChatLoop provider ct (fuel + 1) st
          = oaChatLoop provider ct fuel
              (oaExecToolCalls ct (provider st.providerCalls).toolCalls
                { st with
                  providerCalls := st.providerCalls + 1,
                  history := st.history ++ [OAMsg.assistantToolMsg (provider st.providerCalls)] }))
    ∧ (∀ (ct : String → String → String) (blocks : List ABlock) (st : AState),
      (aProcessBlocks ct blocks st).toolsUsed
          = st.toolsUsed ++ (aToolUses blocks).map (fun b => ToolRec.mk b.2.1 b.2.2)
      ∧ (aProcessBlocks ct blocks st).history
          = st.history ++
            [AMsg.userToolResults ((aToolUses blocks).map (fun b => (b.1, ct b.2.1 b.2.2)))])
    ∧ (∀ (provider : Nat → List ABlock) (ct : String → String → String) (fuel : Nat) (st : AState),
        aHasToolUse (provider st.providerCalls) = true →
        aChatLoop provider ct (fuel + 1) st
          = aChatLoop provider ct fuel
              (aProcessBlocks ct (provider st.providerCalls)
                { st with
                  providerCalls := st.providerCalls + 1,
                  history := st.history ++ [AMsg.assistantBlocks (provider st.providerCalls)] })) := by
  refine ⟨?_, ?_, ?_, ?_⟩
  · intro ct tcs st
    rw [oaExec_spec]
    exact ⟨rfl, rfl⟩
  · intro provider ct fuel st h
    simp [oaChatLoop, h]
  · intro ct blocks st
    rw [aProcess_spec]
    exact ⟨rfl, rfl⟩
  · intro provider ct fuel st h
    simp [aChatLoop, h]

/-! ## Lemmas for C9: escaped patterns match literally -/

/-- Parsing the escape of a character list yields exactly its literal
pieces, whatever was parsed before. -/
theorem parseRegexAux_escaped (l : List Char) :
    ∀ acc : List Piece,
      parseRegexAux acc (reEscapeList l) = some (acc.reverse ++ l.map Piece.lit) := by
  induction l with
  | nil => intro acc; simp [reEscapeList, parseRegexAux]
  | cons c cs ih =>
    intro acc
    rw [reEscapeList, reEscapeChar]
    by_cases hc : reSpecialChars.contains c
    · rw [if_pos hc]
      rw [show (['\\', c] ++ reEscapeList cs) = '\\' :: c :: reEscapeList cs from rfl]
      rw [show parseRegexAux acc ('\\' :: c :: reEscapeList cs)
          = parseRegexAux (Piece.lit c :: acc) (reEscapeList cs) from by
        rw [parseRegexAux.eq_def]
        simp]
      rw [ih]
      simp
    · rw [if_neg hc]
      have hc2 : c ∉ reSpecialChars := fun hm => hc (List.elem_iff.mpr hm)
      have h1 : (c == '\\') = false := by
        rw [beq_eq_false_iff_ne]
        intro h
        exact hc2 (h ▸ (by decide : '\\' ∈ reSpecialChars))
      have h2 : (c == '.') = false := by
        rw [beq_eq_false_iff_ne]
        intro h
        exact hc2 (h ▸ (by decide : '.' ∈ reSpecialChars))
      have h3 : (c == '*') = false := by
        rw [beq_eq_false_iff_ne]
        intro h
        exact hc2 (h ▸ (by decide : '*' ∈ reSpecialChars))
      have h4 : c ∉ unsupportedMeta := by
        intro hm
        fin_cases hm <;> exact hc2 (by decide)
      rw [show ([c] ++ reEscapeList cs) = c :: reEscapeList cs from rfl]
      rw [show parseRegexAux acc (c :: reEscapeList cs)
          = parseRegexAux (Piece.lit c :: acc) (reEscapeList cs) from by
        rw [parseRegexAux.eq_def]
        simp [h1, h2, h3, h4]]
      rw [ih]
      simp

/-- A pattern of literal pieces matches a prefix exactly when the
literal character list is a case-insensitive prefix. -/
theorem matchPrefix_lits (l : List Char) :
    ∀ s : List Char, matchPrefix (l.map Piece.lit) s = isPrefixCI l s := by
  induction l with
  | nil => intro s; cases s <;> simp [matchPrefix, isPrefixCI]
  | cons c cs ih =>
    intro s
    cases s with
    | nil => simp [matchPrefix, isPrefixCI]
    | cons x xs => simp [matchPrefix, isPrefixCI, ih, Bool.beq_comm]

/-- A pattern of literal pieces is found somewhere exactly when the
literal character list is a case-insensitive substring. -/
theorem searchMatch_lits (l : List Char) :
    ∀ s : List Char, searchMatch (l.map Piece.lit) s = isSubstrCI l s := by
  intro s
  induction s with
  | nil => simp [searchMatch, isSubstrCI, matchPrefix_lits]
  | cons x xs ih => simp [searchMatch, isSubstrCI, matchPrefix_lits, ih]

/-- The code's cell test — regex-search of the escaped query — is the
literal case-insensitive substring test. -/
theorem strContainsRegexCI_escape (q s : String) :
    strContainsRegexCI (reEscape q) s = isSubstrCI q.data s.data := by
  rw [strContainsRegexCI, reEscape, parseRegex, parseRegexAux_escaped q.data []]
  simp [searchMatch_lits]

/-! ## C9: row matching is literal case-insensitive substring search -/

/-- C9: a row is counted as a match exactly when some column, rendered
as a string, contains the query as a literal case-insensitive
substring; because the query is regex-escaped before searching, regex
metacharacters in it are ordinary characters and never change which
rows match. -/
theorem c9_match_is_literal_ci_substring (q : String) (r : Row) :
    rowMatches q r = (rowColumns r).any (fun col => isSubstrCI q.data col.data) := by
  unfold rowMatches
  congr 1
  funext col
  exact strContainsRegexCI_escape q col

/-! ## Lemmas for C1 and C8 -/

/-- Membership in the deduplication accumulator. -/
theorem mem_dedupFirstAux [DecidableEq α] (a : α) :
    ∀ (l seen : List α), a ∈ dedupFirstAux seen l ↔ a ∈ l ∧ a ∉ seen := by
  intro l
  induction l with
  | nil => intro seen; simp [dedupFirstAux]
  | cons x xs ih =>
    intro seen
    by_cases hx : x ∈ seen
    · rw [dedupFirstAux, if_pos hx, ih]
      constructor
      · rintro ⟨h1, h2⟩
        exact ⟨List.mem_cons_of_mem _ h1, h2⟩
      · rintro ⟨h1, h2⟩
        rcases List.mem_cons.mp h1 with rfl | h1'
        · exact absurd hx h2
        · exact ⟨h1', h2⟩
    · rw [dedupFirstAux, if_neg hx]
      constructor
      · intro h
        rcases List.mem_cons.mp h with rfl | h'
        · exact ⟨List.mem_cons_self _ _, hx⟩
        · rw [ih] at h'
          obtain ⟨ha, hs⟩ := h'
          exact ⟨List.mem_cons_of_mem _ ha,
            fun hseen => hs (List.mem_cons_of_mem _ hseen)⟩
      · rintro ⟨h1, h2⟩
        rcases List.mem_cons.mp h1 with rfl | h1'
        · exact List.mem_cons_self _ _
        · by_cases hax : a = x
          · subst hax
            exact List.mem_cons_self _ _
          · refine List.mem_cons_of_mem _ ((ih _).mpr ⟨h1', fun hm => ?_⟩)
            rcases List.mem_cons.mp hm with h | h
            · exact hax h
            · exact h2 h

/-- First-occurrence deduplication preserves membership. -/
theorem mem_dedupFirst [DecidableEq α] (a : α) (l : List α) :
    a ∈ dedupFirst l ↔ a ∈ l := by
  simp [dedupFirst, mem_dedupFirstAux]

/-- The restricted-only message and the not-found message differ, for
every query. -/
theorem restrictedOnlyMsg_ne_notFoundMsg (q : String) :
    restrictedOnlyMsg q ≠ notFoundMsg q := by
  intro h
  have hd := congrArg String.data h
  rw [restrictedOnlyMsg, notFoundMsg, String.data_append, String.data_append,
    String.data_append, String.data_append, List.append_assoc, List.append_assoc,
    show ("🚫 '" : String).data = '🚫' :: [' ', '\''] from by decide,
    show ("❌ '" : String).data = '❌' :: [' ', '\''] from by decide] at hd
  have h1 := congrArg List.head? hd
  simp at h1

/-! ## C1: restricted-only results are never reported as not found -/

/-- C1: when the query matches at least one row, the type filter keeps
at least one match, and every type-filtered match lies on a gate-failing
hostname, `search_qmgr_dump` returns the restricted-only message — and
in particular never the not-found message. -/
theorem c1_restricted_reported_not_notfound (prefixes : List String) (rows : List Row)
    (search_string : String) (object_type : Option String)
    (h1 : rows ≠ [])
    (h2 : totalMatches rows search_string ≠ [])
    (h3 : typeFilteredMatches rows search_string object_type ≠ [])
    (h4 : ∀ r ∈ typeFilteredMatches rows search_string object_type,
      (is_hostname_allowed prefixes r.hostname).fst = false) :
    search_qmgr_dump prefixes rows search_string object_type = restrictedOnlyMsg search_string
    ∧ search_qmgr_dump prefixes rows search_string object_type ≠ notFoundMsg search_string := by
  have hA : allowedMatches prefixes rows search_string object_type = [] := by
    rw [allowedMatches, List.filter_eq_nil_iff]
    intro r hr
    rw [h4 r hr]
    simp
  have e1 : rows.isEmpty = false := by
    cases rows with
    | nil => exact absurd rfl h1
    | cons a l => rfl
  have e2 : (totalMatches rows search_string).isEmpty = false := by
    cases htm : totalMatches rows search_string with
    | nil => exact absurd htm h2
    | cons a l => rfl
  have e3 : (typeFilter (inferType search_string object_type)
      (totalMatches rows search_string)).isEmpty = false := by
    have h3' : typeFilter (inferType search_string object_type)
        (totalMatches rows search_string) ≠ [] := h3
    cases htf : typeFilter (inferType search_string object_type)
        (totalMatches rows search_string) with
    | nil => exact absurd htf h3'
    | cons a l => rfl
  have e4 : (allowedMatches prefixes rows search_string object_type).isEmpty = true := by
    rw [hA]
    rfl
  have hmain : search_qmgr_dump prefixes rows search_string object_type
      = restrictedOnlyMsg search_string := by
    simp [search_qmgr_dump, e1, e2, e3, e4]
  exact ⟨hmain, hmain ▸ restrictedOnlyMsg_ne_notFoundMsg search_string⟩

/-- Witness for C1: a queue that exists only on a restricted host is
reported restricted, not absent. -/
theorem c1_witness :
    search_qmgr_dump ["lod", "loq", "lot"]
      [Row.mk "2026-02-16" "lopalhost" "MQQMGR2" "QLOCAL" "DEFINE QLOCAL(QL.IN.APP1)"]
      "QL.IN.APP1" none = restrictedOnlyMsg "QL.IN.APP1" :=
  (c1_restricted_reported_not_notfound ["lod", "loq", "lot"]
    [Row.mk "2026-02-16" "lopalhost" "MQQMGR2" "QLOCAL" "DEFINE QLOCAL(QL.IN.APP1)"]
    "QL.IN.APP1" none (by decide) (by decide) (by decide) (by decide)).1

/-! ## C8: the reported allowed and restricted sets partition the
type-filtered matches -/

/-- C8: no `(queue_manager, hostname)` pair is reported both allowed and
restricted, and every reported triple — allowed or restricted — comes
from a row that passed the requested or inferred type filter. -/
theorem c8_allowed_restricted_disjoint (prefixes : List String) (rows : List Row)
    (search_string : String) (object_type : Option String) :
    (∀ qm h t t2 : String,
      (h, qm, t) ∈ displayTriples (allowedMatches prefixes rows search_string object_type) →
      (h, qm, t2) ∉ displayTriples (restrictedMatches prefixes rows search_string object_type))
    ∧ (∀ p ∈ displayTriples (allowedMatches prefixes rows search_string object_type),
        ∃ r ∈ typeFilteredMatches rows search_string object_type,
          (r.hostname, r.qmgr, r.object_type) = p)
    ∧ (∀ p ∈ displayTriples (restrictedMatches prefixes rows search_string object_type),
        ∃ r ∈ typeFilteredMatches rows search_string object_type,
          (r.hostname, r.qmgr, r.object_type) = p) := by
  refine ⟨?_, ?_, ?_⟩
  · intro qm h t t2 hA hR
    rw [displayTriples, mem_dedupFirst] at hA hR
    obtain ⟨rA, hrA, heqA⟩ := List.mem_map.mp hA
    obtain ⟨rR, hrR, heqR⟩ := List.mem_map.mp hR
    have hAg := (List.mem_filter.mp hrA).2
    have hRg := (List.mem_filter.mp hrR).2
    have hhA : rA.hostname = h := congrArg Prod.fst heqA
    have hhR : rR.hostname = h := congrArg Prod.fst heqR
    rw [hhA] at hAg
    rw [hhR] at hRg
    rw [hAg] at hRg
    exact absurd hRg (by simp)
  · intro p hp
    rw [displayTriples, mem_dedupFirst] at hp
    obtain ⟨r, hr, heq⟩ := List.mem_map.mp hp
    exact ⟨r, (List.mem_filter.mp hr).1, heq⟩
  · intro p hp
    rw [displayTriples, mem_dedupFirst] at hp
    obtain ⟨r, hr, heq⟩ := List.mem_map.mp hp
    exact ⟨r, (List.mem_filter.mp hr).1, heq⟩

/-- Witness for C8: in a mixed search one pair is reported allowed, so
it is not reported restricted, and it stems from a type-filtered row. -/
theorem c8_witness :
    ("lodalhost", "MQQMGR1", "QLOCAL")
      ∉ displayTriples (restrictedMatches ["lod"]
          [Row.mk "d" "lodalhost" "MQQMGR1" "QLOCAL" "DEFINE QLOCAL(QL.IN.APP1)",
           Row.mk "d" "lopalhost" "MQQMGR2" "QLOCAL" "DEFINE QLOCAL(QL.IN.APP1)"]
          "QL.IN.APP1" none) :=
  (c8_allowed_restricted_disjoint ["lod"]
    [Row.mk "d" "lodalhost" "MQQMGR1" "QLOCAL" "DEFINE QLOCAL(QL.IN.APP1)",
     Row.mk "d" "lopalhost" "MQQMGR2" "QLOCAL" "DEFINE QLOCAL(QL.IN.APP1)"]
    "QL.IN.APP1" none).1 "MQQMGR1" "lodalhost" "QLOCAL" "QLOCAL" (by decide)

/-- Witness for C6: one concrete tool-requesting response steps the
loop through its processing. -/
theorem c6_witness :
    oaChatLoop (fun _ => OAResponse.mk none [OAToolCall.mk "1" "dspmq" ""]) (fun _ _ => "r") 1
        (OAState.mk [] [] 0)
      = oaChatLoop (fun _ => OAResponse.mk none [OAToolCall.mk "1" "dspmq" ""]) (fun _ _ => "r") 0
          (oaExecToolCalls (fun _ _ => "r")
            ((fun _ => OAResponse.mk none [OAToolCall.mk "1" "dspmq" ""]) (0 : Nat)).toolCalls
            { OAState.mk [] [] 0 with
              providerCalls := 1,
              history := [] ++ [OAMsg.assistantToolMsg
                ((fun _ => OAResponse.mk none [OAToolCall.mk "1" "dspmq" ""]) (0 : Nat))] }) :=
  c6_tools_execute_in_request_order.2.1
    (fun _ => OAResponse.mk none [OAToolCall.mk "1" "dspmq" ""]) (fun _ _ => "r") 0
    (OAState.mk [] [] 0) (by decide)

end MqMcp
